import Mathlib

/-!
Shallow embedding of the yorkuplan/core-api timetable parser
(`src/scraping/scrapers/helpers/{text_utils,html_parsing,course_parsing,
instructor_notes,room_utils,parser}.py` and
`src/scraping/scrappers/lassonde.py`), together with theorems settling the
frozen claims about it.

Strings are modelled as `List Char` (`Str`).  Python stdlib fragments used by
the source (`html.unescape`, `re.sub`, `str.strip`, `str.lower`, ...) are
modelled for the fragment the source exercises; ASCII case mapping is used and
the named-entity table of `html.unescape` is restricted to the entities
appearing in this repository's fixtures (`amp`, `lt`, `gt`, `quot`, `nbsp`);
the numeric character-reference branch is omitted as unused.  The HTML tree
produced by BeautifulSoup is modelled by the inductive `Node`; the parser is
embedded from the soup level on, since the claims quantify over documents, not
over raw byte streams.
-/

namespace YorkuPlan

abbrev Str := List Char

/-- Whitespace as matched by Python's regex class for whitespace and stripped
by the string strip method, restricted to the characters that can occur here:
space, tab, newline, carriage return, vertical tab, form feed and no-break
space. -/
def isPySpace (c : Char) : Bool :=
  c == ' ' || c == '\t' || c == '\n' || c == '\r' ||
  c == Char.ofNat 11 || c == Char.ofNat 12 || c == Char.ofNat 160

/-! ### `html.unescape` (named-entity fragment) -/

/-- Characters allowed in the name part of a character reference: the Python
regex excludes tab, newline, form feed, space, `<`, `&`, `#` and `;`. -/
def isEntityNameChar (c : Char) : Bool :=
  !(c == '\t' || c == '\n' || c == Char.ofNat 12 || c == ' ' ||
    c == '<' || c == '&' || c == '#' || c == ';')

/-- The named entities this repository's inputs use, with and without the
trailing semicolon, as in Python's html5 table. -/
def entityTable : List (Str × Char) :=
  [("amp;".data, '&'), ("amp".data, '&'),
   ("lt;".data, '<'), ("lt".data, '<'),
   ("gt;".data, '>'), ("gt".data, '>'),
   ("quot;".data, '"'), ("quot".data, '"'),
   ("nbsp;".data, Char.ofNat 160), ("nbsp".data, Char.ofNat 160)]

def lookupEntity (s : Str) : Option Char :=
  (entityTable.find? (fun pc => pc.1 == s)).map Prod.snd

/-- Longest-prefix fallback of Python's replacement function: prefixes of
length `len s - 1` down to `2` are tried against the table; on a hit the
prefix's value is emitted followed by the unconsumed tail, otherwise the
whole match is left as literal text. -/
def entityPrefixFallback (s : Str) : Str :=
  match (List.range (s.length - 1)).reverse.findSome? (fun x =>
    if 2 ≤ x then (lookupEntity (s.take x)).map (fun ch => ch :: s.drop x)
    else none) with
  | some out => out
  | none => '&' :: s

/-- Scanning step of `html.unescape` at a position just after a `&`: returns
the replacement text and the number of input characters consumed (the
replacement is emitted verbatim and scanning resumes after the match). -/
def scanEntity (rest : Str) : Option (Str × Nat) :=
  let name := (rest.takeWhile isEntityNameChar).take 32
  if name = [] then none
  else
    let afterName := rest.drop name.length
    match afterName with
    | ';' :: _ =>
      let full := name ++ [';']
      match lookupEntity full with
      | some ch => some ([ch], name.length + 1)
      | none => some (entityPrefixFallback full, name.length + 1)
    | _ =>
      match lookupEntity name with
      | some ch => some ([ch], name.length)
      | none => some (entityPrefixFallback name, name.length)

/-- Fuelled scanner for `html.unescape`; the fuel is an upper bound on the
number of characters still to be read, so `unescape` below never exhausts
it. -/
def unescapeAux : Nat → Str → Str
  | 0, l => l
  | _ + 1, [] => []
  | n + 1, c :: rest =>
    if c = '&' then
      match scanEntity rest with
      | some (out, k) => out ++ unescapeAux n (rest.drop k)
      | none => c :: unescapeAux n rest
    else c :: unescapeAux n rest

/-- `html.unescape`, named-entity fragment. -/
def unescape (l : Str) : Str := unescapeAux l.length l

/-! ### Whitespace collapsing and stripping -/

/-- Substituting a single space for every maximal whitespace run, as the
source's regex substitution of whitespace-runs does; the flag records whether
the scanner is inside a run already emitted. -/
def collapseAux : Bool → Str → Str
  | _, [] => []
  | inRun, c :: rest =>
    if isPySpace c then
      if inRun then collapseAux true rest
      else ' ' :: collapseAux true rest
    else c :: collapseAux false rest

def collapseWs (l : Str) : Str := collapseAux false l

/-- Python string strip: drop the longest run of stripped characters from
both ends. -/
def stripGen (p : Char → Bool) (l : Str) : Str :=
  (((l.dropWhile p).reverse).dropWhile p).reverse

/-- Python string strip with no argument: drop leading and trailing
whitespace. -/
def stripWs (l : Str) : Str := stripGen isPySpace l

/-- Python string strip with an explicit character set. -/
def stripChars (cs : Str) (l : Str) : Str := stripGen (fun c => cs.contains c) l

/-! ### `text_utils.norm_text` and `text_utils.html_to_text` -/

/-- `norm_text`: unescape entities, collapse whitespace runs to one space,
trim.  (The source returns the empty string for a missing input; all call
sites modelled here pass a string.) -/
def normText (text : Str) : Str := stripWs (collapseWs (unescape text))

/-- Matcher for the line-break-element regex, positioned just after a `<`:
`b`/`B`, `r`/`R`, optional whitespace, optional slash, `>`. -/
def matchBrTail : Str → Option Str
  | b :: r :: rest =>
    if (b.toLower = 'b' ∧ r.toLower = 'r') then
      match rest.dropWhile isPySpace with
      | '/' :: '>' :: rem => some rem
      | '>' :: rem => some rem
      | _ => none
    else none
  | _ => none

def brSubAux (sep : Str) : Nat → Str → Str
  | 0, l => l
  | _ + 1, [] => []
  | n + 1, c :: rest =>
    if c = '<' then
      match matchBrTail rest with
      | some rem => sep ++ brSubAux sep n rem
      | none => c :: brSubAux sep n rest
    else c :: brSubAux sep n rest

/-- Substitution of the configured separator for line-break elements. -/
def brSub (sep : Str) (l : Str) : Str := brSubAux sep l.length l

/-- Matcher for the generic tag regex, positioned just after a `<`: one or
more characters other than `>`, then `>`. -/
def matchTagTail (l : Str) : Option Str :=
  let body := l.takeWhile (fun c => c ≠ '>')
  if body = [] then none
  else
    match l.drop body.length with
    | '>' :: rem => some rem
    | _ => none

def tagSubAux : Nat → Str → Str
  | 0, l => l
  | _ + 1, [] => []
  | n + 1, c :: rest =>
    if c = '<' then
      match matchTagTail rest with
      | some rem => ' ' :: tagSubAux n rem
      | none => c :: tagSubAux n rest
    else c :: tagSubAux n rest

/-- Substitution of a space for every remaining markup tag. -/
def tagSub (l : Str) : Str := tagSubAux l.length l

/-- `html_to_text`: falsy input gives the empty string, otherwise unescape,
replace line-break elements by the separator, strip remaining tags, collapse
whitespace and trim. -/
def htmlToText (sep : Str) (fragment : Str) : Str :=
  if fragment = [] then []
  else stripWs (collapseWs (tagSub (brSub sep (unescape fragment))))

/-! ### The soup: HTML element tree as produced by BeautifulSoup -/

/-- A parsed markup node: an element with a (lowercased) tag name, attribute
list and children, or a navigable string. -/
inductive Node where
  | elem (tag : Str) (attrs : List (Str × Str)) (children : List Node)
  | text (s : Str)

def dummyNode : Node := Node.text []

def Node.childrenOf : Node → List Node
  | .elem _ _ cs => cs
  | .text _ => []

/-- A node is a Tag (element) as opposed to a navigable string. -/
def Node.isElemNode : Node → Bool
  | .elem _ _ _ => true
  | .text _ => false

def tagIs (t : Str) : Node → Bool
  | .elem tag _ _ => tag = t
  | .text _ => false

/-- First value of an attribute, as in the soup's attribute dictionary. -/
def Node.getAttr (name : Str) : Node → Option Str
  | .elem _ attrs _ => (attrs.find? (fun av => av.1 == name)).map Prod.snd
  | .text _ => none

def Node.hasAttrB (name : Str) (n : Node) : Bool :=
  (n.getAttr name).isSome

/-- Splitting a string on whitespace runs, dropping empty pieces; used for
the multi-valued class attribute. -/
def splitOnWs (l : Str) : List Str :=
  let raw := l.foldr (fun c acc =>
    if isPySpace c then
      match acc with
      | [] => []
      | w :: _ => if w = [] then acc else [] :: acc
    else
      match acc with
      | [] => [[c]]
      | w :: ws => (c :: w) :: ws) []
  match raw with
  | [] :: rest => rest
  | w => w

def Node.classesOf (n : Node) : List Str :=
  match n.getAttr "class".data with
  | some v => splitOnWs v
  | none => []

/-- Class filter of the find-all calls: the requested class is one of the
element's classes. -/
def hasClass (cls : Str) (n : Node) : Bool :=
  n.classesOf.any (fun c => c == cls)

mutual

/-- Document-order (depth-first preorder) listing of a node and its
descendants; a node's next elements in the walk are exactly the tail of the
preorder listing after it. -/
def preorderN : Node → List Node
  | .text s => [.text s]
  | .elem t a cs => .elem t a cs :: preorderF cs

def preorderF : List Node → List Node
  | [] => []
  | n :: rest => preorderN n ++ preorderF rest

end

/-- All descendants of a node in document order (the node itself excluded),
the search space of a recursive find-all. -/
def descendants (n : Node) : List Node := preorderF n.childrenOf

/-- Recursive find-all restricted to a tag name. -/
def findAllTag (t : Str) (n : Node) : List Node :=
  (descendants n).filter (tagIs t)

/-- The navigable strings of a subtree in document order. -/
def collectStrings (n : Node) : List Str :=
  (preorderN n).filterMap (fun m =>
    match m with
    | .text s => some s
    | .elem _ _ _ => none)

/-! ### `html_parsing.cell_text` -/

/-- `get_text(" ", strip=True)`: each descendant string stripped, empty ones
dropped, the rest joined with a single space. -/
def getTextStrip (n : Node) : Str :=
  List.intercalate " ".data (((collectStrings n).map stripWs).filter (· ≠ []))

/-- `cell_text` on a present element: joined stripped text, no-break spaces
replaced by plain spaces, then normalized. -/
def cellTextN (n : Node) : Str :=
  normText ((getTextStrip n).map (fun c => if c = Char.ofNat 160 then ' ' else c))

/-- `cell_text` with its missing-element guard. -/
def cellText : Option Node → Str
  | none => []
  | some n => cellTextN n

/-! ### Serialization back to markup (`decode_contents`) -/

/-- Minimal-formatter escaping of text content: ampersand, less-than and
greater-than become entity references. -/
def minimalEscape (l : Str) : Str :=
  l.flatMap (fun c =>
    if c = '&' then "&amp;".data
    else if c = '<' then "&lt;".data
    else if c = '>' then "&gt;".data
    else [c])

/-- Void elements are serialized self-closed and have no children. -/
def isVoidTag (t : Str) : Bool :=
  ["br", "hr", "img", "input", "meta", "link", "area", "base",
   "col", "embed", "source", "track", "wbr"].any (fun v => v.data == t)

def renderAttrs (attrs : List (Str × Str)) : Str :=
  attrs.flatMap (fun av =>
    ' ' :: av.1 ++ '=' :: '"' :: minimalEscape av.2 ++ ['"'])

mutual

def renderNode : Node → Str
  | .text s => minimalEscape s
  | .elem t a cs =>
    if isVoidTag t then '<' :: t ++ renderAttrs a ++ "/>".data
    else '<' :: t ++ renderAttrs a ++ '>' :: renderF cs ++ "</".data ++ t ++ ['>']

def renderF : List Node → Str
  | [] => []
  | n :: rest => renderNode n ++ renderF rest

end

/-- `decode_contents`: the inner markup of an element. -/
def decodeContents (n : Node) : Str := renderF n.childrenOf

/-! ### Activity-type classification -/

/-- Contiguous-substring test, the membership operator on Python strings. -/
def isSubstrOf (p : Str) : Str → Bool
  | [] => p.isEmpty
  | l@(_ :: rest) => p.isPrefixOf l || isSubstrOf p rest

/-- The compacted token: normalize, uppercase, keep only the letters A-Z. -/
def compactLetters (text : Str) : Str :=
  ((normText text).map Char.toUpper).filter (fun c => 'A' ≤ c && c ≤ 'Z')

/-- The classifier loop: canonical code of the first table entry whose
pattern occurs in the compacted token, empty if none matches. -/
def firstMatchCode : List (Str × Str) → Str → Str
  | [], _ => []
  | (p, code) :: rest, compact =>
    if isSubstrOf p compact then code else firstMatchCode rest compact

/-- The ordered pattern table of `get_section_type` in
`scrappers/lassonde.py`, in source order. -/
def lassondeSectionTypes : List (Str × Str) :=
  [("LECT".data, "LECT".data), ("LEC".data, "LECT".data),
   ("LAB".data, "LAB".data),
   ("TUTR".data, "TUTR".data), ("TUT".data, "TUTR".data),
   ("SEMR".data, "SEMR".data), ("SEMINAR".data, "SEMR".data), ("SEM".data, "SEMR".data),
   ("BLEN".data, "BLEN".data), ("BLENDED".data, "BLEN".data),
   ("ONLN".data, "ONLN".data), ("ONLINE".data, "ONLN".data), ("ONL".data, "ONLN".data),
   ("COOP".data, "COOP".data), ("COOPTERM".data, "COOP".data), ("COOPWORKTERM".data, "COOP".data),
   ("ISTY".data, "ISTY".data), ("INDEPENDENTSTUDY".data, "ISTY".data), ("INDSTUDY".data, "ISTY".data),
   ("FDEX".data, "FDEX".data), ("FIELDEXERCISE".data, "FDEX".data),
   ("INSP".data, "INSP".data), ("INTERNSHIP".data, "INSP".data),
   ("RESP".data, "RESP".data), ("RESEARCH".data, "RESP".data),
   ("HYFX".data, "HYFX".data), ("HYBRIDFLEX".data, "HYFX".data),
   ("ONCA".data, "ONCA".data)]

/-- `get_section_type` of `scrappers/lassonde.py`: compact the token, then
return the code of the first matching pattern. -/
def lassondeGetSectionType (text : Str) : Str :=
  firstMatchCode lassondeSectionTypes (compactLetters text)

/-- Modelled from the spec: the module `helpers/section_types.py` (the
ordered mapping table `SECTION_TYPE_MAPPINGS` and its `get_section_type`) is
absent from the sources, with only its unit tests, its importer
`helpers/course_parsing.py` and the spec describing it.  Per the spec the
classifier uppercases the normalized token, strips all non-letter characters
and returns the canonical code of the first entry of an ordered
(pattern, code) table occurring in the compacted token, the empty string if
none; the canonical vocabulary and recognized spellings are the ones its
unit tests pin down, ordered so that each listed spelling reaches its own
code. -/
def SECTION_TYPE_MAPPINGS : List (Str × Str) :=
  [("LECT".data, "LECT".data), ("LEC".data, "LECT".data),
   ("LAB".data, "LAB".data),
   ("TUTR".data, "TUTR".data), ("TUT".data, "TUTR".data),
   ("SEMR".data, "SEMR".data), ("SEMINAR".data, "SEMR".data), ("SEM".data, "SEMR".data),
   ("STDO".data, "STDO".data), ("STUDIO".data, "STDO".data),
   ("BLEN".data, "BLEN".data), ("BLENDED".data, "BLEN".data),
   ("ONLN".data, "ONLN".data), ("ONLINE".data, "ONLN".data), ("ONL".data, "ONLN".data),
   ("COOP".data, "COOP".data), ("COOPTERM".data, "COOP".data), ("COOPWORKTERM".data, "COOP".data),
   ("IDS".data, "IDS".data), ("INDIVIDUALDIRECTEDSTUDY".data, "IDS".data),
   ("ISTY".data, "ISTY".data), ("INDEPENDENTSTUDY".data, "ISTY".data), ("INDSTUDY".data, "ISTY".data),
   ("DIRD".data, "DIRD".data), ("DIRECTEDSTUDY".data, "DIRD".data),
   ("FDEX".data, "FDEX".data), ("FIELDEXERCISE".data, "FDEX".data),
   ("FIEL".data, "FIEL".data), ("FIELDWORK".data, "FIEL".data),
   ("INSP".data, "INSP".data), ("INTERNSHIP".data, "INSP".data),
   ("CORS".data, "CORS".data), ("CORRESPONDENCE".data, "CORS".data),
   ("REEV".data, "REEV".data), ("RESEARCHEVALUATION".data, "REEV".data),
   ("RESP".data, "RESP".data), ("RESEARCH".data, "RESP".data),
   ("THES".data, "THES".data), ("THESIS".data, "THES".data),
   ("WKSP".data, "WKSP".data), ("WORKSHOP".data, "WKSP".data),
   ("WRKS".data, "WRKS".data), ("WRK".data, "WRKS".data),
   ("PRAC".data, "PRAC".data), ("PRA".data, "PRAC".data),
   ("CLIN".data, "CLIN".data), ("CLINICAL".data, "CLIN".data),
   ("HYFX".data, "HYFX".data), ("HYBRIDFLEX".data, "HYFX".data),
   ("DISS".data, "DISS".data), ("DISSERTATION".data, "DISS".data),
   ("LGCL".data, "LGCL".data), ("LANGUAGECLASSES".data, "LGCL".data),
   ("PERF".data, "PERF".data), ("PERFORMANCE".data, "PERF".data),
   ("REMT".data, "REMT".data), ("REMOTE".data, "REMT".data),
   ("REVP".data, "REVP".data), ("REVIEWPAPER".data, "REVP".data),
   ("ONCA".data, "ONCA".data)]

/-- Modelled from the spec: `get_section_type` of the missing
`helpers/section_types.py`, as re-exported by
`course_parsing.get_section_type` with `norm_text` as the normalizer. -/
def getSectionType (text : Str) : Str :=
  firstMatchCode SECTION_TYPE_MAPPINGS (compactLetters text)

/-! ### Data model -/

structure ScheduleEntry where
  day : Str
  time : Str
  duration : Str
  campus : Str
  room : Str
deriving DecidableEq

/-- A section record; the optional section key of the source dictionary is
carried as a possibly-empty `sectionLetter` (the source inserts the key only
when the letter is non-empty). -/
structure SectionDetail where
  type : Str
  meetNumber : Str
  sectionLetter : Str
  catalogNumber : Str
  schedule : List ScheduleEntry
  instructors : List Str
  notes : Str
deriving DecidableEq

structure Course where
  faculty : Str
  department : Str
  term : Str
  courseTitle : Str
  courseId : Str
  credits : Str
  languageOfInstruction : Str
  sections : List SectionDetail
deriving DecidableEq

/-! ### `course_parsing.py` -/

def toLowerStr (l : Str) : Str := l.map Char.toLower

/-- Python string isalpha: non-empty and every character alphabetic (ASCII
fragment). -/
def pyIsAlpha (l : Str) : Bool := !l.isEmpty && l.all Char.isAlpha

/-- Python string isupper: at least one cased character and no lowercase
cased character (ASCII fragment). -/
def pyIsUpper (l : Str) : Bool :=
  l.any (fun c => c.isUpper || c.isLower) && l.all (fun c => !c.isLower)

/-- The header-styled cells of a row: direct td children carrying the
bodytext class. -/
def headerCells (row : Node) : List Node :=
  row.childrenOf.filter (fun n => tagIs "td".data n && hasClass "bodytext".data n)

/-- `is_header_row`: at least four header-styled cells, the fourth carrying a
column-span attribute. -/
def isHeaderRow (row : Node) : Bool :=
  decide (4 ≤ (headerCells row).length) &&
    (match (headerCells row).get? 3 with
     | some c => c.hasAttrB "colspan".data
     | none => false)

/-- `parse_course_header`: base course record from the first four
header-styled cells. -/
def parseCourseHeader (headerRow : Node) : Course :=
  let cells := headerCells headerRow
  { faculty := cellTextN (cells.getD 0 dummyNode)
    department := cellTextN (cells.getD 1 dummyNode)
    term := cellTextN (cells.getD 2 dummyNode)
    courseTitle := cellTextN (cells.getD 3 dummyNode)
    courseId := []
    credits := []
    languageOfInstruction := []
    sections := [] }

/-- `find_section_type_index`: index of the first cell whose text classifies
to a non-empty activity type. -/
def findSectionTypeIndex (rowCells : List Node) : Option Nat :=
  rowCells.findIdx? (fun cell => !(getSectionType (cellTextN cell)).isEmpty)

/-- Matcher for the credit piece of the summary regex: one or more digits, a
dot, exactly two digits; returns the credit text and the remainder. -/
def matchCredits (l : Str) : Option (Str × Str) :=
  let ds := l.takeWhile Char.isDigit
  if ds = [] then none
  else
    match l.drop ds.length with
    | '.' :: d1 :: d2 :: rem =>
      if d1.isDigit && d2.isDigit then some (ds ++ '.' :: d1 :: [d2], rem) else none
    | _ => none

/-- Matcher for the optional trailing section-letter group: optional
whitespace then at most one uppercase letter or digit. -/
def matchGroup3 (l : Str) : Str :=
  match l.dropWhile isPySpace with
  | c :: _ => if ('A' ≤ c && c ≤ 'Z') || c.isDigit then [c] else []
  | [] => []

/-- One attempt of the summary pattern at the current position with a fixed
digit count `k`: `k` digits, an optional uppercase letter (the helpers
pattern always permits it), at least one whitespace, the credit piece, the
optional section letter. -/
def matchSummaryAtLen (k : Nat) (l : Str) : Option (Str × Str × Str) :=
  let num := l.take k
  if num.length = k && num.all Char.isDigit then
    let rest0 := l.drop k
    let step : Str × Str :=
      match rest0 with
      | c :: r => if 'A' ≤ c && c ≤ 'Z' then (num ++ [c], r) else (num, rest0)
      | [] => (num, rest0)
    match step.2 with
    | c :: _ =>
      if isPySpace c then
        match matchCredits (step.2.dropWhile isPySpace) with
        | some (cr, rem) => some (step.1, cr, matchGroup3 rem)
        | none => none
      else none
    | [] => none
  else none

/-- The summary pattern at one position: the greedy three-or-four-digit
course-number quantifier tries four digits first, then three. -/
def matchSummaryAt (l : Str) : Option (Str × Str × Str) :=
  match matchSummaryAtLen 4 l with
  | some g => some g
  | none => matchSummaryAtLen 3 l

/-- Regex search: leftmost position at which the summary pattern matches. -/
def searchSummary : Str → Option (Str × Str × Str)
  | [] => none
  | l@(_ :: rest) =>
    match matchSummaryAt l with
    | some g => some g
    | none => searchSummary rest

/-- The backward scan for the first summary match in the cells left of the
activity-type column. -/
def scanSummary (rowCells : List Node) (sectionTypeIndex : Nat) : Option (Str × Str × Str) :=
  ((List.range sectionTypeIndex).reverse).findSome?
    (fun j => searchSummary (cellTextN (rowCells.getD j dummyNode)))

/-- The backward scan for the first 2-3 letter fully-uppercase token left of
the activity-type column. -/
def scanLoi (rowCells : List Node) (sectionTypeIndex : Nat) : Option Str :=
  ((List.range sectionTypeIndex).reverse).findSome? (fun j =>
    let token := cellTextN (rowCells.getD j dummyNode)
    if decide (1 < token.length) && decide (token.length ≤ 3) &&
        pyIsUpper token && pyIsAlpha token
    then some token else none)

/-- `fill_course_summary_and_loi` of `helpers/course_parsing.py`: scan the
cells left of the activity-type column backwards for the first summary
match, setting course number and credits only when unset; independently scan
backwards for a 2-3 letter fully-uppercase token as language of instruction,
only when unset.  Returns the updated course and the section letter. -/
def fillCourseSummaryAndLoi (rowCells : List Node) (sectionTypeIndex : Nat)
    (course : Course) : Course × Str :=
  let filled : Course × Str :=
    match scanSummary rowCells sectionTypeIndex with
    | some (cid, cr, sl) =>
      ({ course with
          courseId := if course.courseId = [] then cid else course.courseId
          credits := if course.credits = [] then cr else course.credits }, sl)
    | none => (course, [])
  let course2 :=
    if filled.1.languageOfInstruction = [] then
      match scanLoi rowCells sectionTypeIndex with
      | some token => { filled.1 with languageOfInstruction := token }
      | none => filled.1
    else filled.1
  (course2, filled.2)

/-- `room_utils.clean_room`: normalization only. -/
def cleanRoom (roomText : Str) : Str := normText roomText

/-- `parse_schedule_entry`: the five cells of an inner schedule row. -/
def parseScheduleEntry (scheduleCells : List Node) : ScheduleEntry :=
  { day := cellTextN (scheduleCells.getD 0 dummyNode)
    time := cellTextN (scheduleCells.getD 1 dummyNode)
    duration := cellTextN (scheduleCells.getD 2 dummyNode)
    campus := cellTextN (scheduleCells.getD 3 dummyNode)
    room := cleanRoom (cellTextN (scheduleCells.getD 4 dummyNode)) }

/-- Regex split on a single-character class: one piece per gap, empty pieces
included, as Python's split produces. -/
def splitOnPred (p : Char → Bool) : Str → List Str
  | [] => [[]]
  | c :: rest =>
    if p c then [] :: splitOnPred p rest
    else
      match splitOnPred p rest with
      | [] => [[c]]
      | w :: ws => (c :: w) :: ws

/-- `instructor_notes.parse_instructors`: separator-split instructor names
with artifact tokens dropped. -/
def parseInstructors (instructorHtml : Str) : List Str :=
  if instructorHtml = [] then []
  else
    let parts := splitOnPred (fun c => c = '|' || c = ',' || c = ';' || c = '&')
      (htmlToText "|".data instructorHtml)
    (parts.map normText).filter (fun name =>
      name ≠ [] ∧ ¬ (["nbsp", "amp", "lt", "gt"].any (fun w => w.data == toLowerStr name)))

/-- `instructor_notes.parse_notes`: flattened text with line breaks kept as
separators, trimmed of spaces and separator bars. -/
def parseNotes (notesHtml : Str) : Str :=
  if notesHtml = [] then []
  else stripChars " |".data (htmlToText " | ".data notesHtml)

/-- `build_details`: catalog number and cancellation flag from the cell two
past the activity-type column, schedule from the cell three past it (nested
table rows with at least five cells, or the flat text as a single time
entry unless that text itself reads cancelled), instructors and notes from
td children nested directly inside the schedule cell. -/
def buildDetails (rowCells : List Node) (sectionTypeIndex : Nat) :
    List ScheduleEntry × List Str × Str × Str × Bool :=
  let catalogCell := rowCells[sectionTypeIndex + 2]?
  let scheduleCell := rowCells[sectionTypeIndex + 3]?
  let catalogNumber :=
    match catalogCell with
    | some c => cellTextN c
    | none => []
  let isCancelled := toLowerStr catalogNumber == "cancelled".data
  let schedule :=
    match scheduleCell with
    | none => []
    | some sc =>
      match (descendants sc).find? (tagIs "table".data) with
      | some innerTable =>
        (findAllTag "tr".data innerTable).filterMap (fun scheduleRow =>
          let scheduleCells := findAllTag "td".data scheduleRow
          if 5 ≤ scheduleCells.length then
            let e := parseScheduleEntry scheduleCells
            if !e.day.isEmpty || !e.time.isEmpty || !e.duration.isEmpty ||
                !e.campus.isEmpty || !e.room.isEmpty
            then some e else none
          else none)
      | none =>
        let scheduleText := cellTextN sc
        if !scheduleText.isEmpty && (toLowerStr scheduleText != "cancelled".data) then
          [{ day := [], time := scheduleText, duration := [], campus := [], room := [] }]
        else []
  let nestedTds :=
    match scheduleCell with
    | none => []
    | some sc => sc.childrenOf.filter (tagIs "td".data)
  let instructors :=
    match nestedTds[0]? with
    | some td0 => parseInstructors (decodeContents td0)
    | none => []
  let notes :=
    match nestedTds[1]? with
    | some td1 => parseNotes (decodeContents td1)
    | none => []
  (schedule, instructors, notes, catalogNumber, isCancelled)

/-- One probe of the cancelled-notes recovery: the sibling cell at the given
offset past the activity-type column, accepted when its parsed notes text is
non-empty and does not strip to nothing. -/
def probeNotes (rowCells : List Node) (sectionTypeIndex : Nat) (offset : Nat) : Option Str :=
  match rowCells[sectionTypeIndex + offset]? with
  | some c =>
    let pn := parseNotes (decodeContents c)
    if !pn.isEmpty && !(stripWs pn).isEmpty then some pn else none
  | none => none

/-- `maybe_extract_cancelled_notes`: try the sibling cells at offsets four
then five, keeping the incoming notes when both fail. -/
def maybeExtractCancelledNotes (rowCells : List Node) (sectionTypeIndex : Nat)
    (notes : Str) : Str :=
  match probeNotes rowCells sectionTypeIndex 4 with
  | some pn => pn
  | none =>
    match probeNotes rowCells sectionTypeIndex 5 with
    | some pn => pn
    | none => notes

/-- `make_section_detail`: the final section record; the meet number is the
cell one past the activity-type column when present. -/
def makeSectionDetail (rowCells : List Node) (sectionTypeIndex : Nat)
    (sectionType sectionLetter catalogNumber : Str)
    (schedule : List ScheduleEntry) (instructors : List Str) (notes : Str) :
    SectionDetail :=
  { type := sectionType
    meetNumber := cellText (rowCells[sectionTypeIndex + 1]?)
    sectionLetter := sectionLetter
    catalogNumber := catalogNumber
    schedule := schedule
    instructors := instructors
    notes := notes }

/-- Steps three to five of `parse_section_row`, given the located
activity-type column and the section letter the backfill scan returned:
classify the type cell, build the details and recover cancelled notes. -/
def sectionDetailOf (rowCells : List Node) (sectionTypeIndex : Nat)
    (sectionLetter : Str) : SectionDetail :=
  let sectionType := getSectionType (cellTextN (rowCells.getD sectionTypeIndex dummyNode))
  let bd := buildDetails rowCells sectionTypeIndex
  let notes :=
    if bd.2.2.2.2 && (bd.2.2.1).isEmpty then
      maybeExtractCancelledNotes rowCells sectionTypeIndex (bd.2.2.1)
    else bd.2.2.1
  makeSectionDetail rowCells sectionTypeIndex sectionType sectionLetter
    (bd.2.2.2.1) (bd.1) (bd.2.1) notes

/-- Step six of `parse_section_row`: keep the section detail only when it
has any content. -/
def parseSectionRowCore (rowCells : List Node) (sectionTypeIndex : Nat)
    (sectionLetter : Str) : Option SectionDetail :=
  let detail := sectionDetailOf rowCells sectionTypeIndex sectionLetter
  let hasContent := !detail.type.isEmpty || !detail.meetNumber.isEmpty ||
    !detail.catalogNumber.isEmpty || !detail.schedule.isEmpty ||
    !detail.instructors.isEmpty || !detail.notes.isEmpty
  if hasContent then some detail else none

/-- `parse_section_row` of `helpers/course_parsing.py` (two parameters): the
in-place course mutation is modelled by returning the updated course next to
the optional section detail. -/
def parseSectionRow (rowCells : List Node) (course : Course) :
    Option SectionDetail × Course :=
  match findSectionTypeIndex rowCells with
  | none => (none, course)
  | some sectionTypeIndex =>
    let filled := fillCourseSummaryAndLoi rowCells sectionTypeIndex course
    (parseSectionRowCore rowCells sectionTypeIndex filled.2, filled.1)

/-! ### `parser.py`: the orchestrator -/

instance exceptDecEq {ε α : Type} [DecidableEq ε] [DecidableEq α] :
    DecidableEq (Except ε α) := fun x y =>
  match x, y with
  | .ok a, .ok b =>
    if h : a = b then isTrue (by rw [h]) else isFalse (by simp [h])
  | .error a, .error b =>
    if h : a = b then isTrue (by rw [h]) else isFalse (by simp [h])
  | .ok _, .error _ => isFalse (by simp)
  | .error _, .ok _ => isFalse (by simp)

structure Metadata where
  title : Str
  lastUpdated : Str
  source : Str
deriving DecidableEq

/-- The parse result: the courses list, and the metadata record exactly when
it was requested (the source inserts the metadata key only when the record
was built). -/
structure ParseResult where
  metadata : Option Metadata
  courses : List Course
deriving DecidableEq

/-- Document-level metadata: the first heading-styled paragraph's text, and
the text of the first strong element found inside a bodytext-styled
paragraph. -/
def extractMeta (pre : List Node) : Metadata :=
  { title := cellText (pre.find? (fun n => tagIs "p".data n && hasClass "heading".data n))
    lastUpdated :=
      match (pre.filter (fun n => tagIs "p".data n && hasClass "bodytext".data n)).findSome?
          (fun bp => (descendants bp).find? (tagIs "strong".data)) with
      | some strong => cellTextN strong
      | none => []
    source := "York University".data }

/-- The message of the exception that `parser.py` raises on every qualifying
activity row: it passes three positional arguments to the two-parameter
`course_parsing.parse_section_row`. -/
def arityErrorMsg : Str :=
  "TypeError: parse_section_row takes 2 positional arguments but 3 were given".data

/-- The walk over the next elements of one header row: strings and non-row
elements are skipped, the next header row ends the walk, and a non-header
row with direct td cells reaches the faulty three-argument
`parse_section_row` call, which raises. -/
def processCourseRows : List Node → Course → Except Str Course
  | [], course => .ok course
  | element :: rest, course =>
    if ¬ element.isElemNode then processCourseRows rest course
    else if ¬ tagIs "tr".data element then processCourseRows rest course
    else if isHeaderRow element then .ok course
    else
      let rowCells := element.childrenOf.filter (tagIs "td".data)
      if rowCells.isEmpty then processCourseRows rest course
      else .error arityErrorMsg

/-- The outer loop over header rows: each header row starts a fresh course
record and walks its next elements; an exception escaping one walk aborts
the whole parse. -/
def processHeaders (pre : List Node) : List Nat → List Course → Except Str (List Course)
  | [], acc => .ok acc.reverse
  | j :: restIdxs, acc =>
    let headerRow := pre.getD j dummyNode
    match processCourseRows (pre.drop (j + 1)) (parseCourseHeader headerRow) with
    | .ok course => processHeaders pre restIdxs (course :: acc)
    | .error e => .error e

/-- `parse_course_timetable_html`, embedded from the soup: metadata when
requested, then the first table's header rows each walked over the rest of
the document in order.  The third parameter is accepted and documented by
the source but forwarding it to `parse_section_row` raises, which the
`Except` layer records. -/
def parseCourseTimetableHtml (doc : List Node) (extractMetadata : Bool)
    (allowAlphanumericCourseId : Bool) : Except Str ParseResult :=
  let pre := preorderF doc
  let metadata : Option Metadata :=
    if extractMetadata then some (extractMeta pre) else none
  match pre.findIdx? (tagIs "table".data) with
  | none => .ok { metadata := metadata, courses := [] }
  | some ti =>
    let table := pre.getD ti dummyNode
    let tableSpan := (preorderN table).length
    let headerIdxs := (List.range pre.length).filter (fun j =>
      ti < j ∧ j < ti + tableSpan ∧ tagIs "tr".data (pre.getD j dummyNode) ∧
        isHeaderRow (pre.getD j dummyNode))
    match processHeaders pre headerIdxs [] with
    | .ok courses => .ok { metadata := metadata, courses := courses }
    | .error e => .error e

/-! ### Vocabulary, iterated backfill, and concrete fixtures -/

/-- The closed canonical vocabulary of the activity-type classifier: the
codes for lecture, lab, tutorial, seminar, studio, blended, the online
variants, co-op, independent-study (with its individual-directed variant),
directed-study, field-exercise and fieldwork, internship, research and
research-evaluation, thesis, workshop (two codes), practicum, clinical,
hybrid-flex, correspondence, dissertation, language-classes, performance,
remote and review-paper. -/
def officialTypes : List Str :=
  ["LECT", "LAB", "TUTR", "SEMR", "STDO", "BLEN", "ONLN", "ONCA", "COOP",
   "ISTY", "IDS", "DIRD", "FDEX", "FIEL", "INSP", "RESP", "REEV", "THES",
   "WKSP", "WRKS", "PRAC", "CLIN", "HYFX", "CORS", "DISS", "LGCL", "PERF",
   "REMT", "REVP"].map String.data

/-- A sequence of activity rows run through the backfill scanner against one
course record, each step supplying the row's cells and its activity-type
column index. -/
def processBackfill (steps : List (List Node × Nat)) (course : Course) : Course :=
  steps.foldl (fun c step => (fillCourseSummaryAndLoi step.1 step.2 c).1) course

/-- A plain td cell holding one string. -/
def textCell (s : Str) : Node := Node.elem "td".data [] [Node.text s]

/-- A header-styled td cell. -/
def bodytextCell (s : Str) : Node :=
  Node.elem "td".data [("class".data, "bodytext".data)] [Node.text s]

/-- A header-styled td cell carrying a column-span attribute. -/
def bodytextColspanCell (s : Str) : Node :=
  Node.elem "td".data [("class".data, "bodytext".data), ("colspan".data, "2".data)]
    [Node.text s]

def demoHeaderRow : Node :=
  Node.elem "tr".data []
    [bodytextCell "GS".data, bodytextCell "EDUC".data, bodytextCell "FW25".data,
     bodytextColspanCell "Advanced Education Theory".data]

def demoHeaderRow2 : Node :=
  Node.elem "tr".data []
    [bodytextCell "GS".data, bodytextCell "HIST".data, bodytextCell "FW25".data,
     bodytextColspanCell "Second Course".data]

/-- A qualifying activity row (has direct td cells and an activity-type
cell). -/
def demoSectionCells : List Node :=
  [textCell "5001 3.00 A".data, textCell "EN".data, textCell "LEC".data,
   textCell "01".data, textCell "A01".data, textCell "TBA".data]

def demoSectionRow : Node := Node.elem "tr".data [] demoSectionCells

/-- A document whose first table holds a header row followed by a qualifying
activity row. -/
def crashDoc : List Node :=
  [Node.elem "table".data [] [demoHeaderRow, demoSectionRow]]

/-- Scenario D without activity rows: two header rows with a non-row element
interleaved between them. -/
def interleavedDoc : List Node :=
  [Node.elem "table".data []
    [demoHeaderRow, Node.elem "p".data [] [Node.text "noise".data], demoHeaderRow2]]

/-- Scenario D with a qualifying activity row before the second header. -/
def interleavedCrashDoc : List Node :=
  [Node.elem "table".data []
    [demoHeaderRow, Node.elem "p".data [] [Node.text "noise".data],
     demoSectionRow, demoHeaderRow2]]

/-- An activity row whose backward-scanned summary cell carries a trailing
letter on the course number. -/
def alnumCells : List Node :=
  [textCell "4800Q 3.00 A".data, textCell "EN".data, textCell "LEC".data,
   textCell "01".data, textCell "A01".data, textCell "TBA".data]

/-- A document with a header row and the trailing-letter activity row. -/
def alnumDoc : List Node :=
  [Node.elem "table".data [] [demoHeaderRow, Node.elem "tr".data [] alnumCells]]

/-- A cancelled activity row (catalog cell two past the type column reads
cancelled) whose schedule cell holds flat non-cancelled text. -/
def cancelledFlatCells : List Node :=
  [textCell "1002 3.00 C".data, textCell "EN".data, textCell "LECT".data,
   textCell "03".data, textCell "Cancelled".data, textCell "MW 10:00".data]

/-- The cancelled row of the repository test fixture: empty schedule cell,
notes sitting in the sibling cell at offset four. -/
def cancelledNotesCells : List Node :=
  [textCell "1002 3.00 C".data, textCell "EN".data, textCell "LECT".data,
   textCell "03".data, textCell "Cancelled".data, textCell "".data,
   textCell "Cancelled due to weather".data]

/-- A course record with all three backfill fields already populated. -/
def populatedCourse : Course :=
  { faculty := "GS".data, department := "EDUC".data, term := "FW25".data,
    courseTitle := "Advanced Education Theory".data, courseId := "1000".data,
    credits := "3.00".data, languageOfInstruction := "EN".data, sections := [] }

/-! ### Helper lemmas -/

theorem findIdx?_none_spec {α : Type} (p : α → Bool) :
    ∀ (l : List α), l.findIdx? p = none → ∀ x ∈ l, p x = false := by
  intro l h
  exact List.findIdx?_eq_none_iff.mp h

theorem findIdx?_none_intro {α : Type} (p : α → Bool) (l : List α)
    (h : ∀ x ∈ l, p x = false) : l.findIdx? p = none :=
  List.findIdx?_eq_none_iff.mpr h

theorem findIdx?_some_spec {α : Type} (p : α → Bool) (d : α) :
    ∀ (l : List α) (i : Nat), l.findIdx? p = some i →
      i < l.length ∧ p (l.getD i d) = true := by
  intro l
  induction l with
  | nil => intro i h; simp [List.findIdx?] at h
  | cons a t ih =>
    intro i h
    rw [List.findIdx?_cons] at h
    by_cases hp : p a
    · simp [hp] at h
      subst h
      simpa using hp
    · simp [hp] at h
      rcases h with ⟨j, hj, hji⟩
      rcases ih j hj with ⟨hlt, hpj⟩
      subst hji
      constructor
      · simpa using Nat.succ_lt_succ hlt
      · simpa using hpj

theorem getD_mem {α : Type} (l : List α) (i : Nat) (d : α) (h : i < l.length) :
    l.getD i d ∈ l := by
  rw [List.getD_eq_getElem l d h]
  exact List.getElem_mem h

/-- The classifier loop agrees with first-find over the table. -/
theorem firstMatchCode_eq_find? (compact : Str) :
    ∀ (table : List (Str × Str)),
      firstMatchCode table compact =
        (((table.find? (fun pc => isSubstrOf pc.1 compact)).map Prod.snd).getD []) := by
  intro table
  induction table with
  | nil => rfl
  | cons pc rest ih =>
    by_cases h : isSubstrOf pc.1 compact
    · simp [firstMatchCode, List.find?_cons, h]
    · simp only [List.find?_cons]
      rw [Bool.not_eq_true] at h
      simp [firstMatchCode, h, ih]

theorem firstMatchCode_nil_of_no_match (compact : Str) :
    ∀ (table : List (Str × Str)),
      (∀ pc ∈ table, isSubstrOf pc.1 compact = false) →
        firstMatchCode table compact = [] := by
  intro table h
  rw [firstMatchCode_eq_find? compact table]
  rw [List.find?_eq_none.mpr (fun pc hpc => by simp [h pc hpc])]
  rfl

/-! ### Structure of normalized text -/

/-- Every whitespace character of the string is a plain space. -/
def WsIsSpace (l : Str) : Prop := ∀ c ∈ l, isPySpace c = true → c = ' '

/-- No two adjacent whitespace characters. -/
def NoWsRun (l : Str) : Prop :=
  l.Chain' (fun a b => ¬ (isPySpace a = true ∧ isPySpace b = true))

theorem collapseAux_wsIsSpace : ∀ (l : Str) (b : Bool), WsIsSpace (collapseAux b l) := by
  intro l
  induction l with
  | nil => intro b; simp [WsIsSpace, collapseAux]
  | cons a rest ih =>
    intro b
    by_cases ha : isPySpace a
    · cases b with
      | true => simpa [collapseAux, ha] using ih true
      | false =>
        simp only [collapseAux, ha, if_true]
        intro x hx hxs
        rcases List.mem_cons.mp hx with h | h
        · exact h
        · exact ih true x h hxs
    · simp only [collapseAux, ha, if_false]
      intro x hx hxs
      rcases List.mem_cons.mp hx with h | h
      · subst h; exact absurd hxs (by simpa using ha)
      · exact ih false x h hxs

theorem collapseAux_true_head :
    ∀ (l : Str) (c : Char), (collapseAux true l).head? = some c → isPySpace c = false := by
  intro l
  induction l with
  | nil => intro c h; simp [collapseAux] at h
  | cons a rest ih =>
    intro c h
    by_cases ha : isPySpace a
    · exact ih c (by simpa [collapseAux, ha] using h)
    · simp [collapseAux, ha] at h
      subst h
      simpa using ha

theorem collapseAux_noWsRun : ∀ (l : Str) (b : Bool), NoWsRun (collapseAux b l) := by
  intro l
  induction l with
  | nil => intro b; simp [NoWsRun, collapseAux]
  | cons a rest ih =>
    intro b
    by_cases ha : isPySpace a
    · cases b with
      | true => simpa [collapseAux, ha] using ih true
      | false =>
        simp only [collapseAux, ha, if_true]
        refine List.chain'_cons'.mpr ⟨?_, ih true⟩
        intro h hh
        intro hc
        exact absurd hc.2 (by simp [collapseAux_true_head rest h hh])
    · simp only [collapseAux, ha, if_false]
      refine List.chain'_cons'.mpr ⟨?_, ih false⟩
      intro h _ hc
      exact absurd hc.1 (by simpa using ha)

theorem collapseAux_false_id : ∀ (l : Str), WsIsSpace l → NoWsRun l → collapseAux false l = l := by
  intro l
  induction l with
  | nil => intro _ _; rfl
  | cons a rest ih =>
    intro hW hR
    have hWt : WsIsSpace rest := fun c hc => hW c (List.mem_cons_of_mem a hc)
    have hRt : NoWsRun rest := (List.chain'_cons'.mp hR).2
    by_cases ha : isPySpace a
    · have haSp : a = ' ' := hW a (List.mem_cons_self a rest) ha
      have hstep : collapseAux false (a :: rest) = ' ' :: collapseAux true rest := by
        simp [collapseAux, ha]
      have htail : collapseAux true rest = rest := by
        cases rest with
        | nil => rfl
        | cons d r =>
          have hd : isPySpace d = false := by
            have := (List.chain'_cons'.mp hR).1 d rfl
            by_contra hcon
            exact this ⟨ha, by simpa using hcon⟩
          have h1 : collapseAux true (d :: r) = collapseAux false (d :: r) := by
            simp [collapseAux, hd]
          rw [h1]
          exact ih hWt hRt
      rw [hstep, htail, haSp]
    · have hstep : collapseAux false (a :: rest) = a :: collapseAux false rest := by
        simp [collapseAux, ha]
      rw [hstep, ih hWt hRt]

theorem head?_dropWhile (p : Char → Bool) :
    ∀ (l : Str) (c : Char), (l.dropWhile p).head? = some c → p c = false := by
  intro l
  induction l with
  | nil => intro c h; simp [List.dropWhile] at h
  | cons a rest ih =>
    intro c h
    by_cases pa : p a
    · exact ih c (by simpa [List.dropWhile_cons, pa] using h)
    · simp [List.dropWhile_cons, pa] at h
      subst h
      simpa using pa

theorem getLast?_dropWhile_of_ne (p : Char → Bool) :
    ∀ (l : Str), l.dropWhile p ≠ [] → (l.dropWhile p).getLast? = l.getLast? := by
  intro l
  induction l with
  | nil => intro h; simp [List.dropWhile] at h
  | cons a rest ih =>
    intro h
    by_cases pa : p a
    · have hdw : List.dropWhile p (a :: rest) = List.dropWhile p rest := by
        simp [List.dropWhile_cons, pa]
      rw [hdw] at h ⊢
      have hrest : rest ≠ [] := by
        intro hr
        rw [hr] at h
        simp [List.dropWhile] at h
      cases rest with
      | nil => exact absurd rfl hrest
      | cons b r => rw [ih h, List.getLast?_cons_cons]
    · simp [List.dropWhile_cons, pa]

theorem dropWhile_eq_self_of_head (p : Char → Bool) (l : Str)
    (h : ∀ c, l.head? = some c → p c = false) : l.dropWhile p = l := by
  cases l with
  | nil => rfl
  | cons a rest => simp [List.dropWhile_cons, h a rfl]

theorem stripGen_subset (p : Char → Bool) (l : Str) : ∀ x ∈ stripGen p l, x ∈ l := by
  intro x hx
  unfold stripGen at hx
  rw [List.mem_reverse] at hx
  have hx2 := (List.dropWhile_suffix p).sublist.subset hx
  rw [List.mem_reverse] at hx2
  exact (List.dropWhile_suffix p).sublist.subset hx2

theorem stripGen_head (p : Char → Bool) (l : Str) (c : Char)
    (h : (stripGen p l).head? = some c) : p c = false := by
  unfold stripGen at h
  rw [List.head?_reverse] at h
  set W := ((l.dropWhile p).reverse).dropWhile p with hW
  have hne : W ≠ [] := by
    intro h0
    rw [h0] at h
    simp at h
  rw [hW, getLast?_dropWhile_of_ne p _ (hW ▸ hne), List.getLast?_reverse] at h
  exact head?_dropWhile p _ c h

theorem stripGen_getLast (p : Char → Bool) (l : Str) (c : Char)
    (h : (stripGen p l).getLast? = some c) : p c = false := by
  unfold stripGen at h
  rw [List.getLast?_reverse] at h
  exact head?_dropWhile p _ c h

theorem stripGen_eq_self (p : Char → Bool) (l : Str)
    (h1 : ∀ c, l.head? = some c → p c = false)
    (h2 : ∀ c, l.getLast? = some c → p c = false) : stripGen p l = l := by
  unfold stripGen
  rw [dropWhile_eq_self_of_head p l h1]
  rw [dropWhile_eq_self_of_head p l.reverse (fun c hc => h2 c (by rwa [List.head?_reverse] at hc))]
  exact List.reverse_reverse l

theorem noWsRun_reverse (l : Str) (h : NoWsRun l) : NoWsRun l.reverse := by
  unfold NoWsRun at h ⊢
  rw [List.chain'_reverse]
  exact List.Chain'.imp (fun a b hab h2 => hab ⟨h2.2, h2.1⟩) h

theorem noWsRun_dropWhile (p : Char → Bool) (l : Str) (h : NoWsRun l) :
    NoWsRun (l.dropWhile p) :=
  h.suffix (List.dropWhile_suffix p)

theorem stripGen_noWsRun (p : Char → Bool) (l : Str) (h : NoWsRun l) :
    NoWsRun (stripGen p l) :=
  noWsRun_reverse _ (noWsRun_dropWhile p _ (noWsRun_reverse _ (noWsRun_dropWhile p l h)))

theorem unescapeAux_id_of_no_amp :
    ∀ (l : Str) (n : Nat), l.length ≤ n → (∀ c ∈ l, c ≠ '&') → unescapeAux n l = l := by
  intro l
  induction l with
  | nil =>
    intro n _ _
    cases n with
    | zero => rfl
    | succ m => rfl
  | cons a rest ih =>
    intro n hn hc
    cases n with
    | zero => exact absurd hn (by simp)
    | succ m =>
      have ha : ¬ a = '&' := hc a (List.mem_cons_self a rest)
      simp only [unescapeAux, if_neg ha]
      rw [ih m (Nat.le_of_succ_le_succ hn) (fun c hcm => hc c (List.mem_cons_of_mem a hcm))]

theorem unescape_id_of_no_amp (l : Str) (h : ∀ c ∈ l, c ≠ '&') : unescape l = l :=
  unescapeAux_id_of_no_amp l l.length le_rfl h

theorem brSubAux_id_of_no_lt (sep : Str) :
    ∀ (l : Str) (n : Nat), l.length ≤ n → (∀ c ∈ l, c ≠ '<') → brSubAux sep n l = l := by
  intro l
  induction l with
  | nil =>
    intro n _ _
    cases n with
    | zero => rfl
    | succ m => rfl
  | cons a rest ih =>
    intro n hn hc
    cases n with
    | zero => exact absurd hn (by simp)
    | succ m =>
      have ha : ¬ a = '<' := hc a (List.mem_cons_self a rest)
      simp only [brSubAux, if_neg ha]
      rw [ih m (Nat.le_of_succ_le_succ hn) (fun c hcm => hc c (List.mem_cons_of_mem a hcm))]

theorem brSub_id_of_no_lt (sep l : Str) (h : ∀ c ∈ l, c ≠ '<') : brSub sep l = l :=
  brSubAux_id_of_no_lt sep l l.length le_rfl h

theorem tagSubAux_id_of_no_lt :
    ∀ (l : Str) (n : Nat), l.length ≤ n → (∀ c ∈ l, c ≠ '<') → tagSubAux n l = l := by
  intro l
  induction l with
  | nil =>
    intro n _ _
    cases n with
    | zero => rfl
    | succ m => rfl
  | cons a rest ih =>
    intro n hn hc
    cases n with
    | zero => exact absurd hn (by simp)
    | succ m =>
      have ha : ¬ a = '<' := hc a (List.mem_cons_self a rest)
      simp only [tagSubAux, if_neg ha]
      rw [ih m (Nat.le_of_succ_le_succ hn) (fun c hcm => hc c (List.mem_cons_of_mem a hcm))]

theorem tagSub_id_of_no_lt (l : Str) (h : ∀ c ∈ l, c ≠ '<') : tagSub l = l :=
  tagSubAux_id_of_no_lt l l.length le_rfl h

/-! ### Idempotence facts for the normalization pipeline tail -/

theorem stripCollapse_wsIsSpace (u : Str) : WsIsSpace (stripWs (collapseWs u)) := by
  intro c hc
  exact collapseAux_wsIsSpace u false c (stripGen_subset isPySpace _ c hc)

theorem stripCollapse_noWsRun (u : Str) : NoWsRun (stripWs (collapseWs u)) :=
  stripGen_noWsRun isPySpace _ (collapseAux_noWsRun u false)

theorem stripCollapse_strip_id (u : Str) :
    stripWs (stripWs (collapseWs u)) = stripWs (collapseWs u) :=
  stripGen_eq_self isPySpace _
    (fun c hc => stripGen_head isPySpace _ c hc)
    (fun c hc => stripGen_getLast isPySpace _ c hc)

theorem stripCollapse_collapse_id (u : Str) :
    collapseWs (stripWs (collapseWs u)) = stripWs (collapseWs u) :=
  collapseAux_false_id _ (stripCollapse_wsIsSpace u) (stripCollapse_noWsRun u)

/-- A string saturated under the strip-after-collapse tail of the
normalizer stays fixed by a further normalization pass when it contains no
ampersand. -/
theorem normText_fix (u : Str) (h : ∀ c ∈ stripWs (collapseWs u), c ≠ '&') :
    normText (stripWs (collapseWs u)) = stripWs (collapseWs u) := by
  unfold normText
  rw [unescape_id_of_no_amp _ h, stripCollapse_collapse_id, stripCollapse_strip_id]

theorem htmlToText_of_ne (sep l : Str) (h : l ≠ []) :
    htmlToText sep l = stripWs (collapseWs (tagSub (brSub sep (unescape l)))) := by
  simp [htmlToText, h]

/-! ### Claim C4 -/

/-- Claim C4, counterexample: text normalization is not idempotent for every
string.  On the doubly-escaped ampersand entity one pass yields the
singly-escaped entity and a second pass decodes it again, so renormalizing
changes the string. -/
theorem c4_counterexample :
    normText (normText "&amp;amp;".data) ≠ normText "&amp;amp;".data := by decide

/-- Claim C4 (amended): normalization is idempotent on inputs whose
normalized form is free of the ampersand that starts a character-entity
reference; likewise for the markup-fragment conversion with a fixed
separator whenever its result contains neither an ampersand nor a
tag-opening angle bracket.  (In general a second pass can decode entities a
second time, as the counterexample shows.) -/
theorem c4_amended (s : Str) :
    ('&' ∉ normText s → normText (normText s) = normText s) ∧
    (∀ sep : Str, '&' ∉ htmlToText sep s → '<' ∉ htmlToText sep s →
      htmlToText sep (htmlToText sep s) = htmlToText sep s) := by
  constructor
  · intro h
    have hs : normText s = stripWs (collapseWs (unescape s)) := rfl
    rw [hs] at h ⊢
    exact normText_fix (unescape s) (fun c hc heq => h (heq ▸ hc))
  · intro sep hAmp hLt
    by_cases hs : s = []
    · subst hs
      rfl
    · have hrepr : htmlToText sep s = stripWs (collapseWs (tagSub (brSub sep (unescape s)))) :=
        htmlToText_of_ne sep s hs
      by_cases htnil : htmlToText sep s = []
      · rw [htnil]
        rfl
      · have hAmp2 : ∀ c ∈ htmlToText sep s, c ≠ '&' := fun c hc heq => hAmp (heq ▸ hc)
        have hLt2 : ∀ c ∈ htmlToText sep s, c ≠ '<' := fun c hc heq => hLt (heq ▸ hc)
        have step : htmlToText sep (htmlToText sep s) =
            stripWs (collapseWs (tagSub (brSub sep (unescape (htmlToText sep s))))) :=
          htmlToText_of_ne sep _ htnil
        rw [step, unescape_id_of_no_amp _ hAmp2, brSub_id_of_no_lt sep _ hLt2,
          tagSub_id_of_no_lt _ hLt2, hrepr, stripCollapse_collapse_id, stripCollapse_strip_id]

/-- Claim C4 witness: the amended idempotence applied at concrete inputs. -/
theorem c4_witness :
    normText (normText "a  b".data) = normText "a  b".data ∧
    htmlToText "|".data (htmlToText "|".data "<b>Hi there</b>".data) =
      htmlToText "|".data "<b>Hi there</b>".data :=
  ⟨(c4_amended "a  b".data).1 (by decide),
   (c4_amended "<b>Hi there</b>".data).2 "|".data (by decide) (by decide)⟩

/-! ### Claim C1 -/

/-- Claim C1: the spec states the parser never raises and only degrades; the
code contradicts this (and its own unit test exercising a header row with an
activity row): `parser.py` passes three positional arguments to the
two-parameter `course_parsing.parse_section_row`, so every document in which
a header row is followed by a qualifying activity row raises a TypeError.
This theorem evaluates the embedded parser at such a document. -/
theorem c1_parser_raises_on_activity_row :
    parseCourseTimetableHtml crashDoc false true = .error arityErrorMsg := by decide

/-! ### Claim C7 -/

/-- Claim C7: the claim says the caller-supplied flag gates the trailing
letter of the course-number pattern.  In the code the helpers backfill
scanner takes no flag and its pattern always permits the trailing letter
(first conjunct: with no flag anywhere, the course number 4800Q is
accepted), and the orchestrator accepts the flag but raises on the very call
that would use it, for either flag value (second and third conjuncts). -/
theorem c7_flag_has_no_effect :
    (fillCourseSummaryAndLoi alnumCells 2 (parseCourseHeader demoHeaderRow)).1.courseId =
      "4800Q".data ∧
    parseCourseTimetableHtml alnumDoc false false = .error arityErrorMsg ∧
    parseCourseTimetableHtml alnumDoc false true = .error arityErrorMsg := by decide

/-! ### Claim C8 -/

/-- Claim C8: on the pure scenario-D document (two header rows, interleaved
non-row element, no activity rows) the parser does return exactly the two
courses in document order with the non-row element ignored and the first
course's sections empty.  But the claim quantifies over every document with
two headers and an interleaved non-row element, and as soon as a qualifying
activity row precedes the second header the faulty three-argument
`parse_section_row` call raises instead of yielding two courses. -/
theorem c8_two_headers_interleaved :
    (parseCourseTimetableHtml interleavedDoc false true =
      .ok { metadata := none,
            courses := [parseCourseHeader demoHeaderRow, parseCourseHeader demoHeaderRow2] }) ∧
    (parseCourseHeader demoHeaderRow).sections = [] ∧
    parseCourseTimetableHtml interleavedCrashDoc false true = .error arityErrorMsg := by decide

/-! ### Claim C9 -/

/-- Claim C9: a document containing no table element parses to an empty
courses list without raising, and the metadata record is present exactly
when metadata extraction was requested. -/
theorem c9_no_table_empty_courses (doc : List Node) (em aa : Bool)
    (h : ∀ n ∈ preorderF doc, tagIs "table".data n = false) :
    ∃ r, parseCourseTimetableHtml doc em aa = .ok r ∧ r.courses = [] ∧
      r.metadata.isSome = em := by
  have hidx : (preorderF doc).findIdx? (tagIs "table".data) = none :=
    findIdx?_none_intro _ _ h
  refine ⟨{ metadata := if em then some (extractMeta (preorderF doc)) else none,
            courses := [] }, ?_, rfl, ?_⟩
  · simp only [parseCourseTimetableHtml, hidx]
  · cases em <;> simp

/-- Claim C9 witness: a table-free document, metadata requested. -/
theorem c9_witness :
    ∃ r, parseCourseTimetableHtml [Node.elem "p".data [] [Node.text "No courses".data]]
        true false = .ok r ∧ r.courses = [] ∧ r.metadata.isSome = true :=
  c9_no_table_empty_courses _ true false (by decide)

/-! ### Claim C3 -/

/-- Claim C3: the activity-type classifier is total over the declared
canonical vocabulary — every canonical code has at least one input spelling
mapping to it — and any input whose compacted token matches no pattern of
the table maps to the empty string. -/
theorem c3_classifier_total_over_vocabulary :
    (∀ code ∈ officialTypes, ∃ s, getSectionType s = code) ∧
    (∀ s : Str, (∀ pc ∈ SECTION_TYPE_MAPPINGS, isSubstrOf pc.1 (compactLetters s) = false) →
      getSectionType s = []) := by
  constructor
  · intro code hc
    have hAny : ∀ c ∈ officialTypes,
        SECTION_TYPE_MAPPINGS.any (fun pc => pc.2 == c) = true := by decide
    rcases List.any_eq_true.mp (hAny code hc) with ⟨pc, hpc, heq⟩
    have hall : ∀ pc ∈ SECTION_TYPE_MAPPINGS, getSectionType pc.1 = pc.2 := by decide
    have heq2 : pc.2 = code := by simpa using heq
    exact ⟨pc.1, by rw [hall pc hpc, heq2]⟩
  · intro s h
    exact firstMatchCode_nil_of_no_match _ _ h

/-- Claim C3 witness: the studio code is reachable and an unmatched token
classifies to the empty string. -/
theorem c3_witness :
    (∃ s, getSectionType s = "STDO".data) ∧ getSectionType "XYZ".data = [] :=
  ⟨c3_classifier_total_over_vocabulary.1 "STDO".data (by decide),
   c3_classifier_total_over_vocabulary.2 "XYZ".data (by decide)⟩

/-! ### Claim C5 -/

/-- Claim C5: the lassonde classifier uppercases the normalized token,
strips the non-letters and returns the code of the first table entry whose
pattern occurs in the compacted token (empty when none matches), and the
table ordering keeps every listed spelling on its own code, so a short
pattern early in the table never steals the match of a longer recognized
spelling belonging to a different code. -/
theorem c5_ordered_first_match :
    (∀ s : Str, lassondeGetSectionType s =
      (((lassondeSectionTypes.find? (fun pc => isSubstrOf pc.1 (compactLetters s))).map
        Prod.snd).getD [])) ∧
    (∀ pc ∈ lassondeSectionTypes, lassondeGetSectionType pc.1 = pc.2) ∧
    (∀ s : Str, (∀ pc ∈ lassondeSectionTypes, isSubstrOf pc.1 (compactLetters s) = false) →
      lassondeGetSectionType s = []) :=
  ⟨fun s => firstMatchCode_eq_find? (compactLetters s) lassondeSectionTypes,
   by decide,
   fun _ h => firstMatchCode_nil_of_no_match _ _ h⟩

/-- Claim C5 witness: the short lecture spelling maps to the lecture code
and an unmatched token maps to the empty string. -/
theorem c5_witness :
    lassondeGetSectionType "LEC".data = "LECT".data ∧
    lassondeGetSectionType "XYZ".data = [] :=
  ⟨c5_ordered_first_match.2.1 ("LEC".data, "LECT".data) (by decide),
   c5_ordered_first_match.2.2 "XYZ".data (by decide)⟩

/-! ### Claim C6 -/

theorem fill_preserves (rowCells : List Node) (i : Nat) (c : Course) :
    (c.courseId ≠ [] → ((fillCourseSummaryAndLoi rowCells i c).1).courseId = c.courseId) ∧
    (c.credits ≠ [] → ((fillCourseSummaryAndLoi rowCells i c).1).credits = c.credits) ∧
    (c.languageOfInstruction ≠ [] →
      ((fillCourseSummaryAndLoi rowCells i c).1).languageOfInstruction =
        c.languageOfInstruction) := by
  unfold fillCourseSummaryAndLoi
  cases h1 : scanSummary rowCells i with
  | none =>
    cases h2 : scanLoi rowCells i with
    | none => simp
    | some token =>
      by_cases hloi : c.languageOfInstruction = [] <;>
        refine ⟨fun h => ?_, fun h => ?_, fun h => ?_⟩ <;> simp_all
  | some g =>
    rcases g with ⟨cid, cr, sl⟩
    cases h2 : scanLoi rowCells i with
    | none =>
      by_cases hloi : c.languageOfInstruction = [] <;>
        refine ⟨fun h => ?_, fun h => ?_, fun h => ?_⟩ <;> simp_all
    | some token =>
      by_cases hloi : c.languageOfInstruction = [] <;>
        refine ⟨fun h => ?_, fun h => ?_, fun h => ?_⟩ <;> simp_all

/-- Claim C6: once the course number, credits or language of instruction is
set to a non-empty value, no later run of the backfill scanner changes it:
first-seen wins across any sequence of processed activity rows, so each of
the three fields is populated at most once per course. -/
theorem c6_backfill_first_seen_wins (steps : List (List Node × Nat)) (c : Course) :
    (c.courseId ≠ [] → (processBackfill steps c).courseId = c.courseId) ∧
    (c.credits ≠ [] → (processBackfill steps c).credits = c.credits) ∧
    (c.languageOfInstruction ≠ [] →
      (processBackfill steps c).languageOfInstruction = c.languageOfInstruction) := by
  induction steps generalizing c with
  | nil => exact ⟨fun _ => rfl, fun _ => rfl, fun _ => rfl⟩
  | cons s rest ih =>
    have hstep := fill_preserves s.1 s.2 c
    have hfold : processBackfill (s :: rest) c =
        processBackfill rest ((fillCourseSummaryAndLoi s.1 s.2 c).1) := rfl
    refine ⟨fun h => ?_, fun h => ?_, fun h => ?_⟩
    · have h1 := hstep.1 h
      rw [hfold, (ih ((fillCourseSummaryAndLoi s.1 s.2 c).1)).1 (by rw [h1]; exact h), h1]
    · have h1 := hstep.2.1 h
      rw [hfold, (ih ((fillCourseSummaryAndLoi s.1 s.2 c).1)).2.1 (by rw [h1]; exact h), h1]
    · have h1 := hstep.2.2 h
      rw [hfold, (ih ((fillCourseSummaryAndLoi s.1 s.2 c).1)).2.2 (by rw [h1]; exact h), h1]

/-- Claim C6 witness: a fully populated course pushed through a backfill
step carrying different values keeps all three fields. -/
theorem c6_witness :
    (processBackfill [(demoSectionCells, 2)] populatedCourse).courseId = "1000".data ∧
    (processBackfill [(demoSectionCells, 2)] populatedCourse).credits = "3.00".data ∧
    (processBackfill [(demoSectionCells, 2)] populatedCourse).languageOfInstruction =
      "EN".data :=
  ⟨(c6_backfill_first_seen_wins [(demoSectionCells, 2)] populatedCourse).1 (by decide),
   (c6_backfill_first_seen_wins [(demoSectionCells, 2)] populatedCourse).2.1 (by decide),
   (c6_backfill_first_seen_wins [(demoSectionCells, 2)] populatedCourse).2.2 (by decide)⟩

/-! ### Claim C10 -/

theorem sectionDetailOf_type (rowCells : List Node) (i : Nat) (sl : Str) :
    (sectionDetailOf rowCells i sl).type =
      getSectionType (cellTextN (rowCells.getD i dummyNode)) := by
  simp only [sectionDetailOf, makeSectionDetail]

theorem parseSectionRowCore_some (rowCells : List Node) (i : Nat) (sl : Str)
    (htype : (getSectionType (cellTextN (rowCells.getD i dummyNode))).isEmpty = false) :
    ∃ d, parseSectionRowCore rowCells i sl = some d ∧
      d.type = getSectionType (cellTextN (rowCells.getD i dummyNode)) := by
  simp only [parseSectionRowCore, sectionDetailOf_type, htype, Bool.not_false, Bool.true_or]
  rw [if_pos trivial]
  exact ⟨_, rfl, sectionDetailOf_type rowCells i sl⟩

theorem parse_section_row_some_of_index (rowCells : List Node) (course : Course)
    (i : Nat) (h : findSectionTypeIndex rowCells = some i)
    (htype : (getSectionType (cellTextN (rowCells.getD i dummyNode))).isEmpty = false) :
    ∃ d, (parseSectionRow rowCells course).1 = some d ∧
      d.type = getSectionType (cellTextN (rowCells.getD i dummyNode)) := by
  rcases parseSectionRowCore_some rowCells i ((fillCourseSummaryAndLoi rowCells i course).2)
    htype with ⟨d, hd, hdt⟩
  have h1 : (parseSectionRow rowCells course).1 =
      parseSectionRowCore rowCells i ((fillCourseSummaryAndLoi rowCells i course).2) := by
    simp only [parseSectionRow, h]
  exact ⟨d, h1.trans hd, hdt⟩

/-- Claim C10: `parse_section_row` returns no section exactly when no cell
of the row classifies to a non-empty activity type; every returned section
carries a non-empty type, so the final emptiness check never discards a row
that reached it. -/
theorem c10_section_type_nonempty (rowCells : List Node) (course : Course) :
    ((parseSectionRow rowCells course).1 = none ↔
      ∀ cell ∈ rowCells, getSectionType (cellTextN cell) = []) ∧
    (∀ d, (parseSectionRow rowCells course).1 = some d → d.type ≠ []) := by
  cases h : findSectionTypeIndex rowCells with
  | none =>
    have hall := findIdx?_none_spec _ rowCells h
    constructor
    · constructor
      · intro _ cell hcell
        have hc := hall cell hcell
        simpa using hc
      · intro _
        simp [parseSectionRow, h]
    · intro d hd
      simp [parseSectionRow, h] at hd
  | some i =>
    rcases findIdx?_some_spec _ dummyNode rowCells i h with ⟨hlt, hp⟩
    have htype : (getSectionType (cellTextN (rowCells.getD i dummyNode))).isEmpty = false := by
      simpa using hp
    have htype2 : getSectionType (cellTextN (rowCells.getD i dummyNode)) ≠ [] := by
      simpa using htype
    rcases parse_section_row_some_of_index rowCells course i h htype with ⟨d, hd, hdt⟩
    constructor
    · rw [hd]
      constructor
      · intro h0
        exact absurd h0 (by simp)
      · intro hallcells
        exact absurd (hallcells _ (getD_mem rowCells i dummyNode hlt)) htype2
    · intro d2 hd2
      have hdd : d = d2 := Option.some_inj.mp (hd.symm.trans hd2)
      subst hdd
      rw [hdt]
      exact htype2

/-- Claim C10 witness: a row with a recognized activity-type cell yields a
section, and its type is the non-empty classified code. -/
theorem c10_witness :
    (parseSectionRow demoSectionCells populatedCourse).1 ≠ none ∧
    (∀ d, (parseSectionRow demoSectionCells populatedCourse).1 = some d → d.type ≠ []) := by
  constructor
  · intro h0
    have h1 := (c10_section_type_nonempty demoSectionCells populatedCourse).1.mp h0
    have hmem : textCell "LEC".data ∈ demoSectionCells := by simp [demoSectionCells]
    exact absurd (h1 _ hmem) (by decide)
  · exact (c10_section_type_nonempty demoSectionCells populatedCourse).2

/-! ### Claim C2 -/

theorem stripWs_stripChars_of (cs : Str) (hsp : cs.contains ' ' = true) (u : Str) :
    stripWs (stripChars cs (stripWs (collapseWs u))) =
      stripChars cs (stripWs (collapseWs u)) := by
  have hW : ∀ c ∈ stripGen (fun c => cs.contains c) (stripWs (collapseWs u)),
      isPySpace c = true → c = ' ' := fun c hc hws =>
    stripCollapse_wsIsSpace u c (stripGen_subset _ _ c hc) hws
  apply stripGen_eq_self
  · intro c hc
    have hq := stripGen_head (fun c => cs.contains c) (stripWs (collapseWs u)) c hc
    by_contra hcon
    have hsp2 : c = ' ' := hW c (List.mem_of_mem_head? hc) (by simpa using hcon)
    have hq2 : cs.contains ' ' = false := by rw [← hsp2]; simpa using hq
    rw [hq2] at hsp
    exact absurd hsp (by decide)
  · intro c hc
    have hq := stripGen_getLast (fun c => cs.contains c) (stripWs (collapseWs u)) c hc
    by_contra hcon
    have hsp2 : c = ' ' := hW c (List.mem_of_mem_getLast? hc) (by simpa using hcon)
    have hq2 : cs.contains ' ' = false := by rw [← hsp2]; simpa using hq
    rw [hq2] at hsp
    exact absurd hsp (by decide)

theorem parseNotes_strip (x : Str) : stripWs (parseNotes x) = parseNotes x := by
  unfold parseNotes
  by_cases hx : x = []
  · simp [hx, stripWs, stripGen]
  · rw [if_neg hx, htmlToText_of_ne " | ".data x hx]
    exact stripWs_stripChars_of " |".data (by decide) _

theorem probeNotes_spec (rowCells : List Node) (i off : Nat) :
    probeNotes rowCells i off =
      match rowCells[i + off]? with
      | some c =>
        if (parseNotes (decodeContents c)).isEmpty then none
        else some (parseNotes (decodeContents c))
      | none => none := by
  cases h : rowCells[i + off]? with
  | none => simp [probeNotes, h]
  | some c =>
    have hstrip : stripWs (parseNotes (decodeContents c)) = parseNotes (decodeContents c) :=
      parseNotes_strip (decodeContents c)
    by_cases hp : (parseNotes (decodeContents c)).isEmpty = true
    · simp [probeNotes, h, hstrip, hp]
    · simp [probeNotes, h, hstrip, hp]

/-- Claim C2, counterexample: a row whose catalog cell (offset two past the
activity-type column) reads cancelled can still build a non-empty schedule
list — cancellation is recorded but does not suppress schedule extraction,
here from the flat schedule-cell text. -/
theorem c2_counterexample :
    (buildDetails cancelledFlatCells 2).2.2.2.2 = true ∧
    (buildDetails cancelledFlatCells 2).1 ≠ [] := by decide

/-- Claim C2 (amended): cancellation, detected case-insensitively from the
catalog cell, does not by itself empty the schedule list; the schedule is
empty whenever the schedule cell (offset three) is absent, or has no nested
table and its flattened text is empty or itself reads cancelled.  The notes
recovery stands as claimed: the builder probes the sibling cells at offsets
four then five past the activity-type column and keeps the first whose
parsed notes text is non-empty, else the incoming notes. -/
theorem c2_amended (rowCells : List Node) (i : Nat) (notes : Str) :
    (rowCells[i + 3]? = none → (buildDetails rowCells i).1 = []) ∧
    (∀ sc, rowCells[i + 3]? = some sc →
      (descendants sc).find? (tagIs "table".data) = none →
      (cellTextN sc = [] ∨ toLowerStr (cellTextN sc) = "cancelled".data) →
      (buildDetails rowCells i).1 = []) ∧
    (maybeExtractCancelledNotes rowCells i notes =
      match probeNotes rowCells i 4 with
      | some pn => pn
      | none =>
        match probeNotes rowCells i 5 with
        | some pn => pn
        | none => notes) ∧
    (∀ off, probeNotes rowCells i off =
      match rowCells[i + off]? with
      | some c =>
        if (parseNotes (decodeContents c)).isEmpty then none
        else some (parseNotes (decodeContents c))
      | none => none) := by
  refine ⟨?_, ?_, rfl, fun off => probeNotes_spec rowCells i off⟩
  · intro h
    simp [buildDetails, h]
  · intro sc hsc hfind hdisj
    rcases hdisj with h0 | h0 <;> simp [buildDetails, hsc, hfind, h0]

/-- Claim C2 witness: the amended schedule conditions and the notes probing
applied at concrete rows — the repository's cancelled-row fixture recovers
its notes from offset four. -/
theorem c2_witness :
    (buildDetails [textCell "LEC".data] 0).1 = [] ∧
    (buildDetails cancelledNotesCells 2).1 = [] ∧
    maybeExtractCancelledNotes cancelledNotesCells 2 [] =
      "Cancelled due to weather".data := by
  refine ⟨(c2_amended [textCell "LEC".data] 0 []).1 rfl, ?_, ?_⟩
  · exact (c2_amended cancelledNotesCells 2 []).2.1 (textCell "".data) rfl rfl
      (Or.inl (by decide))
  · rw [(c2_amended cancelledNotesCells 2 []).2.2.1]
    rw [(c2_amended cancelledNotesCells 2 []).2.2.2 4]
    decide

end YorkuPlan
